import Mathlib

/-!
Verification of the active-fire pipeline (src/viirs_upload_cloud_func/main.py)
against its natural-language specification.

Shallow embedding conventions:
* A pandas/geopandas frame of fire detections is a `List DetRow` (rows in frame
  order); a column is a field of `DetRow`.  Columns that exist only after
  `filter_by_datetime`'s in-place assignments (`hour`, `minute`, `datetime`)
  are `Option` fields, `none` meaning "column absent for this row".
* Timestamps are minutes: `acq_date` is modelled as an integer day number (the
  external date parse of the `acq_date` string), and the combined
  `datetime` column is `acq_date * 1440 + 60 * hour + minute`, exactly the
  value `pd.to_datetime(acq_date + ' ' + hour + ':' + minute)` denotes.
* Coordinates are rationals (`ℚ`); DBSCAN's Euclidean `dist ≤ eps` test is the
  equivalent squared comparison `dist² ≤ eps²`.
* Python exceptions are `Except String` / `Option` results.
-/

/-- Raw CSV row as parsed by `pd.read_csv` from the FIRMS response, restricted
to the columns `get_firms_data` keeps (`columns_to_keep`, main.py line 41).
`acq_date` is the day number denoted by the date string; `acq_time` is the
integer HHMM value of the CSV column. -/
structure RawRow where
  latitude : ℚ
  longitude : ℚ
  confidence : String
  acq_date : ℤ
  acq_time : ℕ
deriving DecidableEq, Repr

/-- Row of the working GeoDataFrame.  `product` is added by `get_firms_data`
(line 45); `hour`, `minute`, `datetime` are added in place by
`filter_by_datetime` (lines 57-64); `label` is added by `cluster_fires`
(line 95).  `none` models an absent column. -/
structure DetRow where
  latitude : ℚ
  longitude : ℚ
  confidence : String
  acq_date : ℤ
  acq_time : ℕ
  product : String
  hour : Option ℕ := none
  minute : Option ℕ := none
  datetime : Option ℤ := none
  label : Option ℤ := none
deriving DecidableEq, Repr

/-- Number of decimal digits of `str(n)` in Python (`str(0)` has one digit). -/
def decimalDigits (n : ℕ) : ℕ :=
  if n = 0 then 1 else (Nat.digits 10 n).length

/-- Width of `str(n).zfill(4)`: at least 4, more if `n` has more digits. -/
def zfillWidth (n : ℕ) : ℕ := max 4 (decimalDigits n)

/-- Numeric value of the first two characters of `str(n).zfill(4)`
(main.py line 60, `gdf['acq_time'].str[:2]`). -/
def hourOf (n : ℕ) : ℕ := n / 10 ^ (zfillWidth n - 2)

/-- Numeric value of the remaining characters of `str(n).zfill(4)`
(main.py line 61, `gdf['acq_time'].str[2:]`). -/
def minuteOf (n : ℕ) : ℕ := n % 10 ^ (zfillWidth n - 2)

/-- Minute-resolution timestamp denoted by the combined column
`pd.to_datetime(acq_date + ' ' + hour + ':' + minute)` (main.py line 64). -/
def datetimeOf (r : DetRow) : ℤ :=
  r.acq_date * 1440 + (hourOf r.acq_time : ℤ) * 60 + (minuteOf r.acq_time : ℤ)

/-- Value of the `datetime` column of a row; rows reaching the code that reads
this column always carry the column (it is assigned at line 64 before any
read), so the default is never observed in the pipeline. -/
def dtOf (r : DetRow) : ℤ := r.datetime.getD 0

/-- Value of the `label` column of a row; rows reaching the code that reads
this column always carry the column (assigned at line 95). -/
def lab (r : DetRow) : ℤ := r.label.getD (-1)

/-- Longitude/latitude pair of a row, the geometry DBSCAN and the polygon
builder consume (main.py lines 91 and 141). -/
def ptOf (r : DetRow) : ℚ × ℚ := (r.longitude, r.latitude)

/-- The in-place column assignments of `filter_by_datetime` (main.py lines
57-64) applied to one row: `acq_time` is zero-padded and split into `hour` and
`minute`, and the combined `datetime` column is added. -/
def addDatetimeColsRow (r : DetRow) : DetRow :=
  { r with
    hour := some (hourOf r.acq_time)
    minute := some (minuteOf r.acq_time)
    datetime := some (datetimeOf r) }

/-- The in-place column assignments of `filter_by_datetime` (main.py lines
57-64) applied to the whole frame. -/
def addDatetimeCols (gdf : List DetRow) : List DetRow :=
  gdf.map addDatetimeColsRow

/-- Maximum of a list of values (`Series.max()`); `none` on the empty list,
where pandas yields `NaT`. -/
def listMax {α : Type} [LinearOrder α] : List α → Option α
  | [] => none
  | x :: xs =>
    match listMax xs with
    | none => some x
    | some m => some (max x m)

/-- Minimum of a list of values; `none` on the empty list. -/
def listMin {α : Type} [LinearOrder α] : List α → Option α
  | [] => none
  | x :: xs =>
    match listMin xs with
    | none => some x
    | some m => some (min x m)

/-- Insert a row into a list sorted ascending by the `datetime` column. -/
def insertByDt (r : DetRow) : List DetRow → List DetRow
  | [] => [r]
  | y :: ys => if dtOf r ≤ dtOf y then r :: y :: ys else y :: insertByDt r ys

/-- Sort a frame ascending by the `datetime` column
(`gdf.sort_values('datetime')`, main.py line 67). -/
def sortByDt (gdf : List DetRow) : List DetRow := gdf.foldr insertByDt []

/-- Embedding of `filter_by_datetime` (main.py lines 49-78): add the derived
time columns, sort by `datetime`, take the latest timestamp, and keep rows
with `datetime >= latest - days`.  On an empty frame `Series.max()` is `NaT`
and the comparison `datetime >= NaT` is false for every row, so the result is
empty; no code path raises. -/
def filter_by_datetime (gdf : List DetRow) (days : ℤ := 1) : List DetRow :=
  let g := sortByDt (addDatetimeCols gdf)
  match listMax (g.map dtOf) with
  | none => []
  | some latest => g.filter (fun r => decide (latest - days * 1440 ≤ dtOf r))

/-- State of the caller's frame object after `filter_by_datetime` returns: the
column assignments at lines 57-64 mutate the argument in place, while the
`sort_values` at line 67 and the row filter at line 76 produce new frames
bound only to the local name.  The caller's object therefore keeps all rows in
their original order but gains the derived columns. -/
def filter_by_datetime_argEffect (gdf : List DetRow) : List DetRow :=
  addDatetimeCols gdf

/-- Squared Euclidean distance between two coordinate pairs; DBSCAN's
neighborhood test `dist <= eps` is `sqDist <= eps * eps`. -/
def sqDist (p q : ℚ × ℚ) : ℚ :=
  (p.1 - q.1) * (p.1 - q.1) + (p.2 - q.2) * (p.2 - q.2)

/-- Indices of the points within `eps` of point `i` (point `i` itself
included, as in scikit-learn's radius query). -/
def neighborIdxs (pts : List (ℚ × ℚ)) (eps : ℚ) (i : ℕ) : List ℕ :=
  (List.range pts.length).filter
    (fun j => decide (sqDist (pts.getD i (0, 0)) (pts.getD j (0, 0)) ≤ eps * eps))

/-- Core-point test of DBSCAN: at least `min_samples` points (itself included)
lie within `eps` of point `i`. -/
def isCore (pts : List (ℚ × ℚ)) (eps : ℚ) (min_samples : ℕ) (i : ℕ) : Bool :=
  min_samples ≤ (neighborIdxs pts eps i).length

/-- Breadth-first cluster expansion of DBSCAN: pop an index from the queue;
if it is a core point, give every still-unlabelled neighbour the current
cluster number and enqueue it.  `fuel` bounds the recursion; each point is
enqueued at most once, so `(n+1)*(n+1)` fuel is ample. -/
def expandCluster (pts : List (ℚ × ℚ)) (eps : ℚ) (min_samples : ℕ) (lnum : ℤ) :
    ℕ → List ℕ → List ℤ → List ℤ
  | 0, _, labels => labels
  | _ + 1, [], labels => labels
  | fuel + 1, j :: queue, labels =>
    if isCore pts eps min_samples j then
      let fresh := (neighborIdxs pts eps j).filter (fun k => labels.getD k 0 == -1)
      let labels2 := fresh.foldl (fun ls k => ls.set k lnum) labels
      expandCluster pts eps min_samples lnum fuel (queue ++ fresh) labels2
    else
      expandCluster pts eps min_samples lnum fuel queue labels

/-- Seed scan of DBSCAN: walk the points in index order; an unlabelled core
point starts a new cluster, which is then expanded. -/
def dbscanLoop (pts : List (ℚ × ℚ)) (eps : ℚ) (min_samples : ℕ) :
    List ℕ → ℤ → List ℤ → List ℤ
  | [], _, labels => labels
  | i :: rest, lnum, labels =>
    if labels.getD i 0 == -1 && isCore pts eps min_samples i then
      let labels2 := labels.set i lnum
      let labels3 :=
        expandCluster pts eps min_samples lnum
          ((pts.length + 1) * (pts.length + 1)) [i] labels2
      dbscanLoop pts eps min_samples rest (lnum + 1) labels3
    else
      dbscanLoop pts eps min_samples rest lnum labels

/-- Label vector produced by `DBSCAN(eps, min_samples).fit(coords).labels_`
(main.py line 92): every point starts at the noise label `-1`; clusters are
numbered `0, 1, ...` in order of their seed point. -/
def dbscanLabels (pts : List (ℚ × ℚ)) (eps : ℚ) (min_samples : ℕ) : List ℤ :=
  dbscanLoop pts eps min_samples (List.range pts.length) 0
    (List.replicate pts.length (-1))

/-- Embedding of `cluster_fires` (main.py lines 81-97): run DBSCAN on the
`(longitude, latitude)` columns and store each point's cluster number in the
new `label` column. -/
def cluster_fires (gdf : List DetRow) (eps : ℚ := 1 / 100) (min_samples : ℕ := 1) :
    List DetRow :=
  List.zipWith (fun r l => { r with label := some l }) gdf
    (dbscanLabels (gdf.map ptOf) eps min_samples)

/-- Distinct values of a list (`Series.unique` / `nunique` as a set): same
membership and one occurrence per value; kept order is immaterial to every use
(the result feeds a sort, a length, or a membership test). -/
def distinctVals {α : Type} [DecidableEq α] : List α → List α
  | [] => []
  | x :: xs => if x ∈ xs then distinctVals xs else x :: distinctVals xs

/-- Number of points of the frame carrying cluster label `l`
(`gdf['label'].value_counts()`, main.py line 111). -/
def clusterSize (gdf : List DetRow) (l : ℤ) : ℕ :=
  (gdf.filter (fun r => lab r == l)).length

/-- Sub-frame of high-confidence points (`gdf['confidence'] == 'h'`,
main.py line 117). -/
def highConf (gdf : List DetRow) : List DetRow :=
  gdf.filter (fun r => r.confidence == "h")

/-- Number of distinct products among the high-confidence points of cluster
`l` (`high_confidence_gdf.groupby('label')['product'].nunique()`,
main.py line 120). -/
def nHighProducts (gdf : List DetRow) (l : ℤ) : ℕ :=
  (distinctVals (((highConf gdf).filter (fun r => lab r == l)).map (fun r => r.product))).length

/-- Set of cluster labels surviving both corroboration criteria (main.py
lines 110-124): size at least `min_cluster_size`, and — among labels that
appear at all in the high-confidence sub-frame, since `groupby` only indexes
occurring labels — at least `required_high_confidence_per_product` distinct
products with a high-confidence point. -/
def validClusters (gdf : List DetRow) (min_cluster_size req : ℕ) : List ℤ :=
  (distinctVals (gdf.map lab)).filter
    (fun l =>
      decide (min_cluster_size ≤ clusterSize gdf l) &&
      decide (l ∈ (highConf gdf).map lab) &&
      decide (req ≤ nHighProducts gdf l))

/-- Embedding of `filter_clusters_with_product_confidence` (main.py lines
99-129): keep exactly the rows whose label is in the valid set. -/
def filter_clusters_with_product_confidence (gdf : List DetRow)
    (min_cluster_size req : ℕ) : List DetRow :=
  gdf.filter (fun r => decide (lab r ∈ validClusters gdf min_cluster_size req))

/-- Count of how many times the most frequent value occurs in `xs`. -/
def maxCountOf (xs : List ℤ) : ℕ :=
  (listMax ((distinctVals xs).map (fun v => xs.count v))).getD 0

/-- Values of `xs` attaining the maximal count (`Series.mode()` as a set). -/
def modesOf (xs : List ℤ) : List ℤ :=
  (distinctVals xs).filter (fun v => xs.count v == maxCountOf xs)

/-- Semantics of `Series.mode()[0]` (main.py line 150): pandas returns the
maximally frequent values sorted ascending, so element `[0]` is the least of
them; on an empty series `mode()` is empty and `[0]` raises `KeyError`,
modelled by `none`. -/
def pdModeFirst (xs : List ℤ) : Option ℤ := listMin (modesOf xs)

/-- Insert an integer into an ascending list. -/
def insertAsc (x : ℤ) : List ℤ → List ℤ
  | [] => [x]
  | y :: ys => if x ≤ y then x :: y :: ys else y :: insertAsc x ys

/-- Sort integers ascending. -/
def sortAsc (xs : List ℤ) : List ℤ := xs.foldr insertAsc []

/-- Group keys of `gdf.groupby('label')` (main.py line 138): the distinct
labels of the frame, sorted ascending (pandas sorts group keys). -/
def featureLabels (gdf : List DetRow) : List ℤ :=
  sortAsc (distinctVals (gdf.map lab))

/-- Member point geometries of cluster `l`, in frame order — the
`MultiPoint(df.geometry.tolist())` a cluster's polygon is built from
(main.py line 141). -/
def clusterMembers (gdf : List DetRow) (l : ℤ) : List (ℚ × ℚ) :=
  (gdf.filter (fun r => lab r == l)).map ptOf

/-- One GeoJSON feature per group key, keyed by cluster label and carrying the
member points whose convex hull (computed by the external shapely library as a
pure function of exactly these points) is the feature's geometry.  Features
carry no time attribute. -/
def polygonFeatures (gdf : List DetRow) : List (ℤ × List (ℚ × ℚ)) :=
  (featureLabels gdf).map (fun l => (l, clusterMembers gdf l))

/-- Embedding of `create_cluster_polygons` (main.py lines 131-152): build one
feature per label present in the frame (the `groupby` at line 138 does not
exclude any label), then take `gdf['datetime'].mode()[0]` over the whole
frame; on an empty frame that indexing raises `KeyError`, modelled as `none`. -/
def create_cluster_polygons (gdf : List DetRow) :
    Option (ℤ × List (ℤ × List (ℚ × ℚ))) :=
  match pdModeFirst (gdf.map dtOf) with
  | none => none
  | some m => some (m, polygonFeatures gdf)

/-- Row of the BigQuery payload (main.py lines 176-180): the single
representative timestamp, the whole GeoJSON string (all features), and the
ingestion timestamp `datetime.utcnow()` passed in as `now`. -/
structure UploadRow where
  prediction_date : ℤ
  geojson_mask : List (ℤ × List (ℚ × ℚ))
  datetime_added : ℤ
deriving DecidableEq, Repr

/-- Embedding of `upload_to_bigquery` (main.py lines 154-189): the list of
rows handed to `client.insert_rows_json` (line 183) — always the singleton
`[row]` no matter how many features the GeoJSON holds. -/
def upload_to_bigquery (acq_date : ℤ) (polygon_geojson : List (ℤ × List (ℚ × ℚ)))
    (now : ℤ) : List UploadRow :=
  [{ prediction_date := acq_date, geojson_mask := polygon_geojson,
     datetime_added := now }]

/-- Embedding of `get_firms_data` (main.py lines 11-47).  On a fetch error the
`except` clause only prints (line 31), the `else` clause that binds `df` is
skipped, and line 38 then reads the unbound local `df`, raising
`UnboundLocalError` — the function never returns a frame for a failed fetch.
On success the kept columns are passed through and the `product` column is
added. -/
def get_firms_data (product : String) (fetched : Except String (List RawRow)) :
    Except String (List DetRow) :=
  match fetched with
  | Except.error _ =>
    Except.error "UnboundLocalError: local variable df referenced before assignment"
  | Except.ok rows =>
    Except.ok (rows.map (fun w =>
      { latitude := w.latitude, longitude := w.longitude,
        confidence := w.confidence, acq_date := w.acq_date,
        acq_time := w.acq_time, product := product }))

/-- The per-product fetch loop of the handler (main.py line 205), a Python
list comprehension: products are fetched in order and the first exception
aborts the whole comprehension. -/
def fetchAll (fetches : List (String × Except String (List RawRow))) :
    Except String (List (List DetRow)) :=
  match fetches with
  | [] => Except.ok []
  | f :: rest =>
    match get_firms_data f.1 f.2 with
    | Except.error e => Except.error e
    | Except.ok g =>
      match fetchAll rest with
      | Except.error e => Except.error e
      | Except.ok gs => Except.ok (g :: gs)

/-- Embedding of the handler `FIRMS_GEOJSON_UPDATE` (main.py lines 191-219):
fetch every product, recency-filter each batch, concatenate, cluster with the
defaults `eps = 0.01` and `min_samples = 1`, corroboration-filter, synthesise
polygons, and hand the result to BigQuery.  `fetches` gives each requested
product together with the outcome of its HTTP fetch; `now` is the ingestion
clock reading.  The value is the row list handed to the sink plus the HTTP
response, or the uncaught exception that aborts the invocation. -/
def FIRMS_GEOJSON_UPDATE (fetches : List (String × Except String (List RawRow)))
    (min_cluster_size : ℕ := 25) (required_high_confidence : ℕ := 1)
    (now : ℤ := 0) : Except String (List UploadRow × String × ℕ) :=
  match fetchAll fetches with
  | Except.error e => Except.error e
  | Except.ok gdfs =>
    let gdfs := gdfs.map (fun g => filter_by_datetime g 1)
    let combined_gdf := gdfs.flatten
    let clustered := cluster_fires combined_gdf (1 / 100) 1
    let filtered :=
      filter_clusters_with_product_confidence clustered min_cluster_size
        required_high_confidence
    match create_cluster_polygons filtered with
    | none => Except.error "KeyError: 0"
    | some (acq_date, polygon_geojson) =>
      Except.ok (upload_to_bigquery acq_date polygon_geojson now,
        ("Successfully processed and uploaded data", 200))

/-! Helper lemmas about the list primitives of the embedding. -/

theorem mem_insertByDt {a r : DetRow} {l : List DetRow} :
    a ∈ insertByDt r l ↔ a = r ∨ a ∈ l := by
  induction l with
  | nil => simp [insertByDt]
  | cons y ys ih =>
    simp only [insertByDt]
    by_cases h : dtOf r ≤ dtOf y
    · simp [h]
    · simp [h, ih]
      tauto

theorem mem_sortByDt {a : DetRow} {l : List DetRow} :
    a ∈ sortByDt l ↔ a ∈ l := by
  induction l with
  | nil => simp [sortByDt]
  | cons y ys ih =>
    simp only [sortByDt, List.foldr_cons] at *
    rw [mem_insertByDt, ih]
    simp

theorem mem_insertAsc {a x : ℤ} {l : List ℤ} :
    a ∈ insertAsc x l ↔ a = x ∨ a ∈ l := by
  induction l with
  | nil => simp [insertAsc]
  | cons y ys ih =>
    simp only [insertAsc]
    by_cases h : x ≤ y
    · simp [h]
    · simp [h, ih]
      tauto

theorem mem_sortAsc {a : ℤ} {l : List ℤ} : a ∈ sortAsc l ↔ a ∈ l := by
  induction l with
  | nil => simp [sortAsc]
  | cons y ys ih =>
    simp only [sortAsc, List.foldr_cons] at *
    rw [mem_insertAsc, ih]
    simp

theorem mem_distinctVals {α : Type} [DecidableEq α] {a : α} {l : List α} :
    a ∈ distinctVals l ↔ a ∈ l := by
  induction l with
  | nil => simp [distinctVals]
  | cons x xs ih =>
    simp only [distinctVals]
    by_cases h : x ∈ xs
    · rw [if_pos h, ih]
      constructor
      · exact fun hm => List.mem_cons_of_mem _ hm
      · intro hm
        rcases List.mem_cons.mp hm with h1 | h1
        · exact h1 ▸ h
        · exact h1
    · rw [if_neg h]
      simp [ih]

theorem listMax_mem {α : Type} [LinearOrder α] {l : List α} {m : α}
    (h : listMax l = some m) : m ∈ l := by
  induction l generalizing m with
  | nil => simp [listMax] at h
  | cons x xs ih =>
    simp only [listMax] at h
    cases hx : listMax xs with
    | none =>
      rw [hx] at h
      simp at h
      simp [h]
    | some m0 =>
      rw [hx] at h
      simp at h
      rcases max_cases x m0 with ⟨he, _⟩ | ⟨he, _⟩
      · rw [he] at h
        simp [h]
      · rw [he] at h
        exact h ▸ List.mem_cons_of_mem _ (ih hx)

theorem listMax_isSome {α : Type} [LinearOrder α] {l : List α} (h : l ≠ []) :
    (listMax l).isSome = true := by
  cases l with
  | nil => exact absurd rfl h
  | cons x xs =>
    simp only [listMax]
    cases listMax xs <;> simp

theorem listMax_le {α : Type} [LinearOrder α] {l : List α} {m : α}
    (h : listMax l = some m) : ∀ y ∈ l, y ≤ m := by
  induction l generalizing m with
  | nil => simp
  | cons x xs ih =>
    simp only [listMax] at h
    intro y hy
    cases hx : listMax xs with
    | none =>
      have hnil : xs = [] := by
        by_contra hne
        have := listMax_isSome hne
        rw [hx] at this
        simp at this
      rw [hx] at h
      simp at h
      subst hnil
      rcases List.mem_cons.mp hy with rfl | hy
      · exact le_of_eq h
      · cases hy
    | some m0 =>
      rw [hx] at h
      simp at h
      rcases List.mem_cons.mp hy with rfl | hy
      · exact h ▸ le_max_left _ _
      · exact h ▸ le_trans (ih hx y hy) (le_max_right _ _)

theorem listMax_eq_some_iff {α : Type} [LinearOrder α] {l : List α} {m : α} :
    listMax l = some m ↔ m ∈ l ∧ ∀ y ∈ l, y ≤ m := by
  constructor
  · exact fun h => ⟨listMax_mem h, listMax_le h⟩
  · rintro ⟨hmem, hub⟩
    have hne : l ≠ [] := List.ne_nil_of_mem hmem
    obtain ⟨m0, hm0⟩ := Option.isSome_iff_exists.mp (listMax_isSome hne)
    have h1 : m0 ≤ m := hub _ (listMax_mem hm0)
    have h2 : m ≤ m0 := listMax_le hm0 _ hmem
    rw [hm0, le_antisymm h1 h2]

theorem listMin_mem {α : Type} [LinearOrder α] {l : List α} {m : α}
    (h : listMin l = some m) : m ∈ l := by
  induction l generalizing m with
  | nil => simp [listMin] at h
  | cons x xs ih =>
    simp only [listMin] at h
    cases hx : listMin xs with
    | none =>
      rw [hx] at h
      simp at h
      simp [h]
    | some m0 =>
      rw [hx] at h
      simp at h
      rcases min_cases x m0 with ⟨he, _⟩ | ⟨he, _⟩
      · rw [he] at h
        simp [h]
      · rw [he] at h
        exact h ▸ List.mem_cons_of_mem _ (ih hx)

theorem listMin_isSome {α : Type} [LinearOrder α] {l : List α} (h : l ≠ []) :
    (listMin l).isSome = true := by
  cases l with
  | nil => exact absurd rfl h
  | cons x xs =>
    simp only [listMin]
    cases listMin xs <;> simp

theorem listMin_le {α : Type} [LinearOrder α] {l : List α} {m : α}
    (h : listMin l = some m) : ∀ y ∈ l, m ≤ y := by
  induction l generalizing m with
  | nil => simp
  | cons x xs ih =>
    simp only [listMin] at h
    intro y hy
    cases hx : listMin xs with
    | none =>
      have hnil : xs = [] := by
        by_contra hne
        have := listMin_isSome hne
        rw [hx] at this
        simp at this
      rw [hx] at h
      simp at h
      subst hnil
      rcases List.mem_cons.mp hy with rfl | hy
      · exact le_of_eq h.symm
      · cases hy
    | some m0 =>
      rw [hx] at h
      simp at h
      rcases List.mem_cons.mp hy with rfl | hy
      · exact h ▸ min_le_left _ _
      · exact h ▸ le_trans (min_le_right _ _) (ih hx y hy)

theorem listMax_congr {α : Type} [LinearOrder α] {l₁ l₂ : List α}
    (h : ∀ a, a ∈ l₁ ↔ a ∈ l₂) : listMax l₁ = listMax l₂ := by
  cases h1 : listMax l₁ with
  | none =>
    cases h2 : listMax l₂ with
    | none => rfl
    | some m =>
      have hm : m ∈ l₁ := (h m).mpr (listMax_mem h2)
      have := listMax_isSome (List.ne_nil_of_mem hm)
      rw [h1] at this
      simp at this
  | some m =>
    have hc := listMax_eq_some_iff.mp h1
    exact (listMax_eq_some_iff.mpr
      ⟨(h m).mp hc.1, fun y hy => hc.2 y ((h y).mpr hy)⟩).symm

theorem count_le_maxCountOf {xs : List ℤ} {v : ℤ} (h : v ∈ xs) :
    xs.count v ≤ maxCountOf xs := by
  have hv : v ∈ distinctVals xs := mem_distinctVals.mpr h
  have hmem : xs.count v ∈ (distinctVals xs).map (fun w => xs.count w) :=
    List.mem_map_of_mem _ hv
  obtain ⟨M, hM⟩ := Option.isSome_iff_exists.mp
    (listMax_isSome (List.ne_nil_of_mem hmem))
  have := listMax_le hM _ hmem
  simpa [maxCountOf, hM] using this

theorem modesOf_ne_nil {xs : List ℤ} (h : xs ≠ []) : modesOf xs ≠ [] := by
  obtain ⟨x, xs', rfl⟩ := List.exists_cons_of_ne_nil h
  have hx : x ∈ distinctVals (x :: xs') := mem_distinctVals.mpr (List.mem_cons_self _ _)
  have hmem : (x :: xs').count x ∈ (distinctVals (x :: xs')).map
      (fun w => (x :: xs').count w) := List.mem_map_of_mem _ hx
  obtain ⟨M, hM⟩ := Option.isSome_iff_exists.mp
    (listMax_isSome (List.ne_nil_of_mem hmem))
  obtain ⟨v, hv, hvc⟩ := List.mem_map.mp (listMax_mem hM)
  have hMC : maxCountOf (x :: xs') = M := by simp [maxCountOf, hM]
  have : v ∈ modesOf (x :: xs') := by
    simp only [modesOf, List.mem_filter]
    exact ⟨hv, by simp [hMC, hvc]⟩
  exact List.ne_nil_of_mem this

theorem pdModeFirst_isSome {xs : List ℤ} (h : xs ≠ []) :
    (pdModeFirst xs).isSome = true :=
  listMin_isSome (modesOf_ne_nil h)

theorem pdModeFirst_spec {xs : List ℤ} {m : ℤ} (h : pdModeFirst xs = some m) :
    m ∈ xs ∧ (∀ v ∈ xs, xs.count v ≤ xs.count m) ∧
      (∀ v ∈ xs, xs.count v = xs.count m → m ≤ v) := by
  have hm : m ∈ modesOf xs := listMin_mem h
  have hmf := List.mem_filter.mp hm
  have hcm : xs.count m = maxCountOf xs := by
    have := hmf.2
    simpa using this
  refine ⟨mem_distinctVals.mp hmf.1, ?_, ?_⟩
  · intro v hv
    calc xs.count v ≤ maxCountOf xs := count_le_maxCountOf hv
    _ = xs.count m := hcm.symm
  · intro v hv hvc
    have hvm : v ∈ modesOf xs := by
      simp only [modesOf, List.mem_filter]
      exact ⟨mem_distinctVals.mpr hv, by simp [hvc.trans hcm]⟩
    exact listMin_le h _ hvm

/-! Lemmas about the DBSCAN embedding. -/

theorem getD_set_or (ls : List ℤ) (k j : ℕ) (v : ℤ) :
    (ls.set k v).getD j 0 = ls.getD j 0 ∨ (ls.set k v).getD j 0 = v := by
  rw [List.getD_eq_getElem?_getD, List.getD_eq_getElem?_getD, List.getElem?_set]
  by_cases hkj : k = j
  · subst hkj
    by_cases hk : k < ls.length
    · simp [hk]
    · simp [hk, List.getElem?_eq_none (le_of_not_lt hk)]
  · simp [hkj]

theorem getD_set_self {ls : List ℤ} {k : ℕ} (v : ℤ) (h : k < ls.length) :
    (ls.set k v).getD k 0 = v := by
  rw [List.getD_eq_getElem?_getD, List.getElem?_set]
  simp [h]

theorem foldlSet_getD_or (v : ℤ) (j : ℕ) :
    ∀ (ks : List ℕ) (ls : List ℤ),
      (ks.foldl (fun l k => l.set k v) ls).getD j 0 = ls.getD j 0 ∨
      (ks.foldl (fun l k => l.set k v) ls).getD j 0 = v := by
  intro ks
  induction ks with
  | nil => intro ls; exact Or.inl rfl
  | cons k ks ih =>
    intro ls
    simp only [List.foldl_cons]
    rcases ih (ls.set k v) with h | h
    · rcases getD_set_or ls k j v with h2 | h2
      · exact Or.inl (h.trans h2)
      · exact Or.inr (h.trans h2)
    · exact Or.inr h

theorem foldlSet_length (v : ℤ) :
    ∀ (ks : List ℕ) (ls : List ℤ),
      (ks.foldl (fun l k => l.set k v) ls).length = ls.length := by
  intro ks
  induction ks with
  | nil => intro ls; rfl
  | cons k ks ih =>
    intro ls
    simp only [List.foldl_cons]
    rw [ih, List.length_set]

theorem expandCluster_getD_or (pts : List (ℚ × ℚ)) (eps : ℚ) (ms : ℕ) (lnum : ℤ)
    (j : ℕ) :
    ∀ (fuel : ℕ) (q : List ℕ) (ls : List ℤ),
      (expandCluster pts eps ms lnum fuel q ls).getD j 0 = ls.getD j 0 ∨
      (expandCluster pts eps ms lnum fuel q ls).getD j 0 = lnum := by
  intro fuel
  induction fuel with
  | zero => intro q ls; exact Or.inl rfl
  | succ fuel ih =>
    intro q ls
    match q with
    | [] => exact Or.inl rfl
    | k :: q' =>
      simp only [expandCluster]
      by_cases hc : isCore pts eps ms k
      · simp only [hc, if_true]
        rcases ih _ _ with h | h
        · rcases foldlSet_getD_or lnum j
            ((neighborIdxs pts eps k).filter (fun i => ls.getD i 0 == -1)) ls with h2 | h2
          · exact Or.inl (h.trans h2)
          · exact Or.inr (h.trans h2)
        · exact Or.inr h
      · simp only [hc, if_false]
        exact ih _ _

theorem expandCluster_length (pts : List (ℚ × ℚ)) (eps : ℚ) (ms : ℕ) (lnum : ℤ) :
    ∀ (fuel : ℕ) (q : List ℕ) (ls : List ℤ),
      (expandCluster pts eps ms lnum fuel q ls).length = ls.length := by
  intro fuel
  induction fuel with
  | zero => intro q ls; rfl
  | succ fuel ih =>
    intro q ls
    match q with
    | [] => rfl
    | k :: q' =>
      simp only [expandCluster]
      by_cases hc : isCore pts eps ms k
      · simp only [hc, if_true]
        rw [ih, foldlSet_length]
      · simp only [hc, if_false]
        exact ih _ _

theorem sqDist_self (p : ℚ × ℚ) : sqDist p p = 0 := by
  simp [sqDist]

theorem self_mem_neighborIdxs {pts : List (ℚ × ℚ)} (eps : ℚ) {i : ℕ}
    (h : i < pts.length) : i ∈ neighborIdxs pts eps i := by
  simp only [neighborIdxs, List.mem_filter, List.mem_range]
  refine ⟨h, ?_⟩
  rw [sqDist_self]
  simpa using mul_self_nonneg eps

theorem isCore_one {pts : List (ℚ × ℚ)} (eps : ℚ) {i : ℕ}
    (h : i < pts.length) : isCore pts eps 1 i = true := by
  simp only [isCore, decide_eq_true_eq]
  have := List.ne_nil_of_mem (self_mem_neighborIdxs eps h)
  exact Nat.one_le_iff_ne_zero.mpr (by simpa [List.length_eq_zero] using this)

theorem dbscanLoop_length (pts : List (ℚ × ℚ)) (eps : ℚ) (ms : ℕ) :
    ∀ (idxs : List ℕ) (lnum : ℤ) (ls : List ℤ),
      (dbscanLoop pts eps ms idxs lnum ls).length = ls.length := by
  intro idxs
  induction idxs with
  | nil => intro lnum ls; rfl
  | cons i rest ih =>
    intro lnum ls
    simp only [dbscanLoop]
    by_cases hg : (ls.getD i 0 == -1 && isCore pts eps ms i) = true
    · simp only [hg, if_true]
      rw [ih, expandCluster_length, List.length_set]
    · simp only [hg, if_false]
      exact ih _ _

theorem expandCluster_wf (pts : List (ℚ × ℚ)) (eps : ℚ) (ms : ℕ) {lnum : ℤ}
    (hl : 0 ≤ lnum) (fuel : ℕ) (q : List ℕ) (ls : List ℤ)
    (hwf : ∀ j, ls.getD j 0 = -1 ∨ 0 ≤ ls.getD j 0) :
    ∀ j, (expandCluster pts eps ms lnum fuel q ls).getD j 0 = -1 ∨
      0 ≤ (expandCluster pts eps ms lnum fuel q ls).getD j 0 := by
  intro j
  rcases expandCluster_getD_or pts eps ms lnum j fuel q ls with h | h
  · rw [h]; exact hwf j
  · rw [h]; exact Or.inr hl

theorem dbscanLoop_nonneg (pts : List (ℚ × ℚ)) (eps : ℚ) :
    ∀ (idxs : List ℕ) (lnum : ℤ) (ls : List ℤ),
      0 ≤ lnum →
      (∀ i ∈ idxs, i < pts.length) →
      ls.length = pts.length →
      (∀ j, ls.getD j 0 = -1 ∨ 0 ≤ ls.getD j 0) →
      ∀ j, (j ∈ idxs ∨ 0 ≤ ls.getD j 0) →
        0 ≤ (dbscanLoop pts eps 1 idxs lnum ls).getD j 0 := by
  intro idxs
  induction idxs with
  | nil =>
    intro lnum ls _ _ _ _ j hj
    rcases hj with hj | hj
    · cases hj
    · exact hj
  | cons i rest ih =>
    intro lnum ls hl hidx hlen hwf j hj
    have hi : i < pts.length := hidx i (List.mem_cons_self _ _)
    have hcore : isCore pts eps 1 i = true := isCore_one eps hi
    simp only [dbscanLoop]
    by_cases hgi : ls.getD i 0 == -1
    · have hg : (ls.getD i 0 == -1 && isCore pts eps 1 i) = true := by
        rw [hgi, hcore]; rfl
      simp only [hg, if_true]
      set ls2 := ls.set i lnum with hls2
      set ls3 := expandCluster pts eps 1 lnum ((pts.length + 1) * (pts.length + 1))
        [i] ls2 with hls3
      have hlen2 : ls2.length = pts.length := by
        rw [hls2, List.length_set]; exact hlen
      have hlen3 : ls3.length = pts.length := by
        rw [hls3, expandCluster_length]; exact hlen2
      have hwf2 : ∀ j, ls2.getD j 0 = -1 ∨ 0 ≤ ls2.getD j 0 := by
        intro j'
        rcases getD_set_or ls i j' lnum with h | h
        · rw [hls2, h]; exact hwf j'
        · rw [hls2, h]; exact Or.inr hl
      have hwf3 : ∀ j, ls3.getD j 0 = -1 ∨ 0 ≤ ls3.getD j 0 :=
        expandCluster_wf pts eps 1 hl _ _ _ hwf2
      have hset : 0 ≤ ls2.getD i 0 := by
        rw [hls2, getD_set_self lnum (hlen ▸ hi)]
        exact hl
      have hpres : ∀ j', 0 ≤ ls2.getD j' 0 → 0 ≤ ls3.getD j' 0 := by
        intro j' hj'
        rcases expandCluster_getD_or pts eps 1 lnum j'
          ((pts.length + 1) * (pts.length + 1)) [i] ls2 with h | h
        · rw [hls3, h]; exact hj'
        · rw [hls3, h]; exact hl
      refine ih (lnum + 1) ls3 (by omega) (fun a ha => hidx a (List.mem_cons_of_mem _ ha))
        hlen3 hwf3 j ?_
      rcases hj with hj | hj
      · rcases List.mem_cons.mp hj with rfl | hj
        · exact Or.inr (hpres _ hset)
        · exact Or.inl hj
      · refine Or.inr (hpres j ?_)
        rcases getD_set_or ls i j lnum with h | h
        · rw [hls2, h]; exact hj
        · rw [hls2, h]; exact hl
    · have hg : (ls.getD i 0 == -1 && isCore pts eps 1 i) = false := by
        simp only [Bool.and_eq_false_iff]
        exact Or.inl (by simpa using hgi)
      simp only [hg, if_false]
      refine ih lnum ls hl (fun a ha => hidx a (List.mem_cons_of_mem _ ha)) hlen hwf j ?_
      rcases hj with hj | hj
      · rcases List.mem_cons.mp hj with rfl | hj
        · rcases hwf j with h | h
          · exact absurd (by simpa using h) (by simpa using hgi)
          · exact Or.inr h
        · exact Or.inl hj
      · exact Or.inr hj

theorem dbscanLabels_length (pts : List (ℚ × ℚ)) (eps : ℚ) (ms : ℕ) :
    (dbscanLabels pts eps ms).length = pts.length := by
  rw [dbscanLabels, dbscanLoop_length, List.length_replicate]

theorem dbscanLabels_nonneg (pts : List (ℚ × ℚ)) (eps : ℚ) :
    ∀ l ∈ dbscanLabels pts eps 1, 0 ≤ l := by
  intro l hl
  obtain ⟨n, hn, hget⟩ := List.mem_iff_getElem.mp hl
  have hnp : n < pts.length := by
    rwa [dbscanLabels_length] at hn
  have hgd : (dbscanLabels pts eps 1).getD n 0 = l := by
    rw [List.getD_eq_getElem?_getD, List.getElem?_eq_getElem hn, Option.getD_some, hget]
  rw [← hgd]
  refine dbscanLoop_nonneg pts eps (List.range pts.length) 0
    (List.replicate pts.length (-1)) le_rfl ?_ (List.length_replicate _ _) ?_ n ?_
  · intro i hi
    exact List.mem_range.mp hi
  · intro j
    rw [List.getD_eq_getElem?_getD]
    by_cases hj : j < pts.length
    · rw [List.getElem?_eq_getElem (by simpa using hj), List.getElem_replicate]
      exact Or.inl rfl
    · rw [List.getElem?_eq_none (by simpa using le_of_not_lt hj)]
      exact Or.inr le_rfl
  · exact Or.inl (List.mem_range.mpr hnp)

theorem mem_zipWith {α β γ : Type} {f : α → β → γ} {c : γ} :
    ∀ {as : List α} {bs : List β}, c ∈ List.zipWith f as bs →
      ∃ a b, a ∈ as ∧ b ∈ bs ∧ c = f a b := by
  intro as
  induction as with
  | nil => intro bs h; simp at h
  | cons a as ih =>
    intro bs h
    cases bs with
    | nil => simp at h
    | cons b bs =>
      simp only [List.zipWith_cons_cons, List.mem_cons] at h
      rcases h with rfl | h
      · exact ⟨a, b, List.mem_cons_self _ _, List.mem_cons_self _ _, rfl⟩
      · obtain ⟨a', b', ha, hb, hc⟩ := ih h
        exact ⟨a', b', List.mem_cons_of_mem _ ha, List.mem_cons_of_mem _ hb, hc⟩

/-! Concrete example inputs used by counterexamples and witnesses. -/

/-- A single detection row as it leaves `get_firms_data`: origin coordinates,
high confidence, day 0, time 0000. -/
def exRow : DetRow :=
  { latitude := 0, longitude := 0, confidence := "h", acq_date := 0,
    acq_time := 0, product := "VIIRS_SNPP_NRT" }

/-- A row carrying the DBSCAN noise label `-1`, as the Corroboration Filter
could hand onward if its input contained noise points. -/
def exNoise : DetRow :=
  { exRow with label := some (-1), datetime := some 7 }

/-- A five-row frame holding two clusters with different per-cluster modal
acquisition times: cluster 0 has three points at time 10, cluster 1 has two
points at time 20. -/
def exTwo : List DetRow :=
  [ { exRow with label := some 0, datetime := some 10 },
    { exRow with label := some 0, datetime := some 10 },
    { exRow with label := some 0, datetime := some 10 },
    { exRow with longitude := 1, latitude := 1, label := some 1, datetime := some 20 },
    { exRow with longitude := 1, latitude := 1, label := some 1, datetime := some 20 } ]

/-- The polygon features `create_cluster_polygons` builds from `exTwo`. -/
def exTwoFeats : List (ℤ × List (ℚ × ℚ)) :=
  [(0, [(0, 0), (0, 0), (0, 0)]), (1, [(1, 1), (1, 1)])]

/-! Claim C10. -/

/-- C10: with the pipeline's default `min_samples = 1` every point is its own
core point, so `cluster_fires` never assigns the noise label `-1`: every row
of its output carries a `label` column holding a non-noise cluster number. -/
theorem c10_no_noise_min_samples_one (gdf : List DetRow) (eps : ℚ) (r : DetRow)
    (h : r ∈ cluster_fires gdf eps 1) :
    r.label.isSome = true ∧ r.label ≠ some (-1) := by
  obtain ⟨r0, l, _, hl, rfl⟩ := mem_zipWith h
  have h0 : 0 ≤ l := dbscanLabels_nonneg _ eps l hl
  refine ⟨rfl, ?_⟩
  intro hc
  have : l = -1 := by simpa using hc
  omega

/-- C10 witness: the theorem applied to a concrete one-point frame. -/
theorem c10_no_noise_witness :
    ({ exRow with label := some 0 } : DetRow).label.isSome = true ∧
      ({ exRow with label := some 0 } : DetRow).label ≠ some (-1) :=
  c10_no_noise_min_samples_one [exRow] (1 / 100) { exRow with label := some 0 }
    (of_decide_eq_true (by with_unfolding_all rfl))

/-! Claim C3. -/

/-- C3 counterexample: on the empty Detection Batch, `filter_by_datetime`
returns the empty frame as an ordinary result — no exception of any kind is
raised (no code path of main.py lines 49-78 can raise on an empty frame: the
`max()` of an empty series is `NaT` and the comparison with `NaT` is false
everywhere), contradicting the claimed surfaced `EmptyBatchError`. -/
theorem c3_empty_batch_counterexample : filter_by_datetime [] 1 = [] := rfl

/-- C3 amended: for every lookback duration, an empty input batch produces a
silently empty filtered output; no `EmptyBatchError` (nor any other failure)
exists in the code. -/
theorem c3_empty_batch_silent (days : ℤ) : filter_by_datetime [] days = [] := rfl

/-! Claim C8. -/

/-- Columns of a row other than the derived `hour`/`minute`/`datetime` ones. -/
def coreView (r : DetRow) : ℚ × ℚ × String × ℤ × ℕ × String × Option ℤ :=
  (r.latitude, r.longitude, r.confidence, r.acq_date, r.acq_time, r.product, r.label)

/-- C8 counterexample: `filter_by_datetime` mutates the caller's frame: after
the call the input object differs from what was passed in (the `datetime`
column, among others, has been added in place at main.py lines 57-64),
contradicting the claimed absence of in-place mutation. -/
theorem c8_mutation_counterexample :
    filter_by_datetime_argEffect [exRow] ≠ [exRow] :=
  of_decide_eq_true (by with_unfolding_all rfl)

/-- C8 amended: `filter_by_datetime` mutates its input in place by adding the
derived `hour`/`minute`/`datetime` columns (and restringifying `acq_time`),
but it neither reorders nor drops nor otherwise edits the input's rows: every
other column is preserved row-for-row, and sorting/filtering happen only on
new frames bound to the local name. -/
theorem c8_inplace_columns (gdf : List DetRow) :
    (filter_by_datetime_argEffect gdf).map coreView = gdf.map coreView ∧
      ∀ r ∈ filter_by_datetime_argEffect gdf, r.datetime.isSome = true := by
  constructor
  · induction gdf with
    | nil => rfl
    | cons x xs ih =>
      simp only [filter_by_datetime_argEffect, addDatetimeCols, List.map_cons] at *
      rw [ih]
      rfl
  · intro r hr
    simp only [filter_by_datetime_argEffect, addDatetimeCols] at hr
    obtain ⟨r0, _, rfl⟩ := List.mem_map.mp hr
    rfl

/-- C8 witness: the amended theorem applied to a concrete one-row frame. -/
theorem c8_inplace_columns_witness :
    (filter_by_datetime_argEffect [exRow]).map coreView = [exRow].map coreView ∧
      (addDatetimeColsRow exRow).datetime.isSome = true :=
  ⟨(c8_inplace_columns [exRow]).1,
    (c8_inplace_columns [exRow]).2 (addDatetimeColsRow exRow)
      (of_decide_eq_true (by with_unfolding_all rfl))⟩

/-! Claim C6. -/

/-- C6: the Corroboration Filter is anti-monotone in both thresholds: raising
`min_cluster_size` or `required_high_confidence_per_product` never adds a
surviving cluster label. -/
theorem c6_corroboration_monotone (gdf : List DetRow) (s1 h1 s2 h2 : ℕ)
    (hs : s1 ≤ s2) (hh : h1 ≤ h2) (l : ℤ)
    (hl : l ∈ validClusters gdf s2 h2) : l ∈ validClusters gdf s1 h1 := by
  simp only [validClusters, List.mem_filter, Bool.and_eq_true,
    decide_eq_true_eq] at hl ⊢
  obtain ⟨hmem, ⟨hsz, hpc⟩, hrq⟩ := hl
  exact ⟨hmem, ⟨le_trans hs hsz, hpc⟩, le_trans hh hrq⟩

/-- C6 witness: the theorem applied at a concrete frame and thresholds. -/
theorem c6_corroboration_monotone_witness :
    (0 : ℤ) ∈ validClusters
      [ { exRow with label := some 0 },
        { exRow with product := "VIIRS_NOAA20_NRT", label := some 0 } ] 1 1 :=
  c6_corroboration_monotone
    [ { exRow with label := some 0 },
      { exRow with product := "VIIRS_NOAA20_NRT", label := some 0 } ]
    1 1 2 2 (by decide) (by decide) 0
    (of_decide_eq_true (by with_unfolding_all rfl))

/-! Claim C5. -/

/-- C5: recency-window membership. For a non-empty batch (the latest
timestamp `m` exists), a detection row is retained by `filter_by_datetime` if
and only if it is one of the (column-augmented) input rows and its acquisition
timestamp is at least `m` minus the lookback. -/
theorem c5_recency_window_iff (gdf : List DetRow) (days m : ℤ) (r : DetRow)
    (hm : listMax ((addDatetimeCols gdf).map dtOf) = some m) :
    r ∈ filter_by_datetime gdf days ↔
      r ∈ addDatetimeCols gdf ∧ m - days * 1440 ≤ dtOf r := by
  have hmemiff : ∀ a : ℤ, a ∈ (sortByDt (addDatetimeCols gdf)).map dtOf ↔
      a ∈ (addDatetimeCols gdf).map dtOf := by
    intro a
    constructor <;> intro hmem <;> obtain ⟨x, hx, rfl⟩ := List.mem_map.mp hmem
    · exact List.mem_map_of_mem _ (mem_sortByDt.mp hx)
    · exact List.mem_map_of_mem _ (mem_sortByDt.mpr hx)
  have hmax : listMax ((sortByDt (addDatetimeCols gdf)).map dtOf) = some m :=
    (listMax_congr hmemiff).trans hm
  simp only [filter_by_datetime, hmax]
  rw [List.mem_filter, mem_sortByDt, decide_eq_true_eq]

/-- C5 witness: the theorem applied to a concrete one-row batch. -/
theorem c5_recency_window_iff_witness :
    addDatetimeColsRow exRow ∈ filter_by_datetime [exRow] 1 ↔
      addDatetimeColsRow exRow ∈ addDatetimeCols [exRow] ∧
        (0 : ℤ) - 1 * 1440 ≤ dtOf (addDatetimeColsRow exRow) :=
  c5_recency_window_iff [exRow] 1 0 (addDatetimeColsRow exRow)
    (by with_unfolding_all rfl)

/-! Claim C1. -/

theorem map_fst_pairs {β : Type} (f : ℤ → β) :
    ∀ xs : List ℤ, (xs.map (fun l => (l, f l))).map Prod.fst = xs := by
  intro xs
  induction xs with
  | nil => rfl
  | cons x xs ih => simp only [List.map_cons, ih]

/-- C1 counterexample: `create_cluster_polygons` does NOT skip the noise
label: fed a frame whose only row is labelled `-1`, it emits a polygon
feature keyed by `-1`. -/
theorem c1_noise_polygon_emitted :
    create_cluster_polygons [exNoise] = some (7, [(-1, [((0 : ℚ), (0 : ℚ))])]) := by
  with_unfolding_all rfl

/-- C1 amended: `create_cluster_polygons` contains no defensive skip: for a
non-empty input it emits exactly one polygon feature per label present in the
frame — the noise label `-1` included whenever the input still contains it.
(No noise polygon arises in the deployed pipeline only because clustering with
`min_samples = 1` never assigns `-1`.) -/
theorem c1_polygon_per_label (gdf : List DetRow) (l : ℤ) (h : gdf ≠ []) :
    create_cluster_polygons gdf =
      some ((pdModeFirst (gdf.map dtOf)).getD 0, polygonFeatures gdf) ∧
      (l ∈ (polygonFeatures gdf).map Prod.fst ↔ l ∈ gdf.map lab) := by
  have hne : gdf.map dtOf ≠ [] := fun hmap => h (List.map_eq_nil_iff.mp hmap)
  obtain ⟨m, hm⟩ := Option.isSome_iff_exists.mp (pdModeFirst_isSome hne)
  constructor
  · simp only [create_cluster_polygons, hm, Option.getD_some]
  · rw [polygonFeatures, map_fst_pairs, featureLabels]
    exact mem_sortAsc.trans mem_distinctVals

/-- C1 witness: the amended theorem applied to the noise-labelled frame with
`l = -1`. -/
theorem c1_polygon_per_label_witness :
    create_cluster_polygons [exNoise] =
      some ((pdModeFirst ([exNoise].map dtOf)).getD 0, polygonFeatures [exNoise]) ∧
      ((-1 : ℤ) ∈ (polygonFeatures [exNoise]).map Prod.fst ↔
        (-1 : ℤ) ∈ [exNoise].map lab) :=
  c1_polygon_per_label [exNoise] (-1) (List.cons_ne_nil _ _)

/-! Claim C2. -/

/-- C2 counterexample: the emitted artifact carries ONE timestamp computed
over the whole filtered frame, not one per cluster: on `exTwo` the result
carries the single time `10` (the global mode) while cluster 1's own modal
acquisition time is `20`, and the per-cluster features carry no time at
all. -/
theorem c2_global_mode_counterexample :
    create_cluster_polygons exTwo = some (10, exTwoFeats) ∧
      pdModeFirst ((exTwo.filter (fun r => lab r == 1)).map dtOf) = some 20 ∧
      (10 : ℤ) ≠ 20 :=
  ⟨by with_unfolding_all rfl, by with_unfolding_all rfl, by decide⟩

/-- C2 amended: `create_cluster_polygons` attaches a single representative
time to the entire result — the statistical mode of `datetime` over ALL rows
of the filtered frame (least value among tied modes, per pandas) — and the
per-cluster features carry no time of their own. -/
theorem c2_single_global_mode (gdf : List DetRow) (m : ℤ)
    (feats : List (ℤ × List (ℚ × ℚ)))
    (h : create_cluster_polygons gdf = some (m, feats)) :
    m ∈ gdf.map dtOf ∧
      (∀ v ∈ gdf.map dtOf, (gdf.map dtOf).count v ≤ (gdf.map dtOf).count m) ∧
      (∀ v ∈ gdf.map dtOf,
        (gdf.map dtOf).count v = (gdf.map dtOf).count m → m ≤ v) ∧
      feats = polygonFeatures gdf := by
  cases hm : pdModeFirst (gdf.map dtOf) with
  | none =>
    simp only [create_cluster_polygons, hm] at h
    exact Option.noConfusion h
  | some m0 =>
    simp only [create_cluster_polygons, hm, Option.some.injEq, Prod.mk.injEq] at h
    obtain ⟨rfl, rfl⟩ := h
    obtain ⟨h1, h2, h3⟩ := pdModeFirst_spec hm
    exact ⟨h1, h2, h3, rfl⟩

/-- C2 witness: the amended theorem applied to `exTwo`. -/
theorem c2_single_global_mode_witness :
    (10 : ℤ) ∈ exTwo.map dtOf ∧ exTwoFeats = polygonFeatures exTwo :=
  ⟨(c2_single_global_mode exTwo 10 exTwoFeats (by with_unfolding_all rfl)).1,
    (c2_single_global_mode exTwo 10 exTwoFeats (by with_unfolding_all rfl)).2.2.2⟩

/-! Claim C7. -/

/-- C7 counterexample: an invocation producing TWO polygons hands the sink a
single record: `exTwo` yields two features, yet the row list passed to
`insert_rows_json` has length one (the whole GeoJSON travels inside that one
row). -/
theorem c7_single_record_counterexample :
    create_cluster_polygons exTwo = some (10, exTwoFeats) ∧
      exTwoFeats.length = 2 ∧
      (upload_to_bigquery 10 exTwoFeats 99).length = 1 :=
  ⟨by with_unfolding_all rfl, by decide, by decide⟩

/-- C7 amended: `upload_to_bigquery` always hands the Result Sink exactly one
record per invocation, regardless of how many polygon features the GeoJSON
holds; that single record carries the one global representative time, the
entire feature collection, and the ingestion timestamp. -/
theorem c7_one_record_per_invocation (acq : ℤ)
    (feats : List (ℤ × List (ℚ × ℚ))) (now : ℤ) :
    (upload_to_bigquery acq feats now).length = 1 ∧
      upload_to_bigquery acq feats now =
        [{ prediction_date := acq, geojson_mask := feats,
           datetime_added := now }] :=
  ⟨rfl, rfl⟩

/-! Claim C4. -/

/-- A raw detection of scenario B: all ten points share one location, high
confidence, day 0, time 0000. -/
def exRawB : RawRow :=
  { latitude := 0, longitude := 0, confidence := "h", acq_date := 0,
    acq_time := 0 }

/-- Scenario B fetch outcome: 10 tightly packed points (4 + 3 + 3 across the
three default products), all within `eps` of each other. -/
def scenarioB : List (String × Except String (List RawRow)) :=
  [ ("VIIRS_SNPP_NRT", Except.ok (List.replicate 4 exRawB)),
    ("VIIRS_NOAA21_NRT", Except.ok (List.replicate 3 exRawB)),
    ("VIIRS_NOAA20_NRT", Except.ok (List.replicate 3 exRawB)) ]

/-- C4: evaluating the handler at scenario B (10 tightly packed points,
`min_cluster_size = 25`).  The single 10-point cluster fails the size
threshold, the Corroboration Filter output is empty, and the invocation then
ABORTS: `create_cluster_polygons` indexes `mode()[0]` of an empty series,
raising `KeyError` — it does not return an empty polygon set. -/
theorem c4_scenario_b_crashes :
    FIRMS_GEOJSON_UPDATE scenarioB 25 1 0 = Except.error "KeyError: 0" ∧
      create_cluster_polygons [] = none :=
  ⟨by with_unfolding_all rfl, rfl⟩

/-! Claim C9. -/

/-- Whether an invocation outcome is an uncaught exception. -/
def isErrorB {α : Type} : Except String α → Bool
  | Except.error _ => true
  | Except.ok _ => false

theorem fetchAll_error {fetches : List (String × Except String (List RawRow))}
    {p e : String} (h : (p, Except.error e) ∈ fetches) :
    ∃ msg, fetchAll fetches = Except.error msg := by
  induction fetches with
  | nil => cases h
  | cons f rest ih =>
    rcases List.mem_cons.mp h with hf | hf
    · refine ⟨"UnboundLocalError: local variable df referenced before assignment", ?_⟩
      simp only [fetchAll, ← hf, get_firms_data]
    · obtain ⟨msg, hmsg⟩ := ih hf
      simp only [fetchAll, hmsg]
      cases hg : get_firms_data f.1 f.2 with
      | error e2 => exact ⟨e2, rfl⟩
      | ok g => exact ⟨msg, rfl⟩

/-- C9: if the fetch of any requested product fails, the whole invocation
aborts with an uncaught exception: the failed product is never replaced by an
empty batch, and no clustering, corroboration or persistence result is
produced (the handler returns no sink rows and no success response). -/
theorem c9_fetch_error_aborts (fetches : List (String × Except String (List RawRow)))
    (p e : String) (mcs req : ℕ) (now : ℤ)
    (h : (p, Except.error e) ∈ fetches) :
    isErrorB (FIRMS_GEOJSON_UPDATE fetches mcs req now) = true := by
  obtain ⟨msg, hmsg⟩ := fetchAll_error h
  simp only [FIRMS_GEOJSON_UPDATE, hmsg]
  rfl

/-- C9 witness: the theorem applied to a concrete fetch list whose only
product fails. -/
theorem c9_fetch_error_aborts_witness :
    isErrorB (FIRMS_GEOJSON_UPDATE
      [("VIIRS_SNPP_NRT", Except.error "boom")] 25 1 0) = true :=
  c9_fetch_error_aborts [("VIIRS_SNPP_NRT", Except.error "boom")]
    "VIIRS_SNPP_NRT" "boom" 25 1 0 (List.mem_cons_self _ _)
